import Mathlib

/-!
Verification development for the markdown chunking engine of the
physics-chatbot repository (src/chunking/markdown_chunker.py and
src/chunking/chunker.py).

Documents are modelled as `List Char`.  Python string idioms (`str.strip`,
slices with negative indices, `str.find`, the `re` patterns used by the
chunker) are embedded as executable functions over `List Char` whose
semantics follows CPython for the ASCII inputs the chunker handles.
Positions are `Int` where the Python code can produce negative values
(`str.find` returns -1) and `Nat` elsewhere.
-/

/-- Python `\s` / `str.strip` whitespace on ASCII text. -/
def pyIsSpace (c : Char) : Bool :=
  c = ' ' || c = '\t' || c = '\n' || c = '\r' || c = '\x0b' || c = '\x0c'

/-- Python `str.strip()`: remove leading and trailing whitespace. -/
def pyStrip (l : List Char) : List Char :=
  ((l.dropWhile pyIsSpace).reverse.dropWhile pyIsSpace).reverse

/-- markdown_chunker.py `estimate_tokens`: `max(1, len(text) // 4)`. -/
def estimate_tokens (l : List Char) : Nat :=
  max 1 (l.length / 4)

/-- Normalize a Python slice index against a list length. -/
def pyIdx (len : Nat) (i : Int) : Nat :=
  if i < 0 then (max 0 ((len : Int) + i)).toNat else min i.toNat len

/-- Python slice `l[a:b]` with Python's negative-index semantics. -/
def pySlice (l : List Char) (a b : Int) : List Char :=
  (l.take (pyIdx l.length b)).drop (pyIdx l.length a)

/-- Slice `l[a:b]` for plain non-negative indices. -/
def listSlice (l : List Char) (a b : Nat) : List Char :=
  (l.take b).drop a

/-- Python `text.find(sub, start)`: least index `i ≥ start` at which `sub`
occurs in `text`, or `-1`.  The start is normalized like a slice index. -/
def pyFind (text sub : List Char) (start : Int) : Int :=
  let n := text.length
  let s0 : Nat := if start < 0 then (max 0 ((n : Int) + start)).toNat else start.toNat
  match (List.range (n + 1)).find?
      (fun i => s0 ≤ i && i + sub.length ≤ n && (text.drop i).take sub.length = sub) with
  | some i => (i : Int)
  | none => -1

/-- Stable insertion of a span into a list sorted by `(start, end)`. -/
def insertSpanLex (x : Nat × Nat) : List (Nat × Nat) → List (Nat × Nat)
  | [] => [x]
  | y :: ys =>
    if x.1 < y.1 || (x.1 = y.1 && x.2 ≤ y.2) then x :: y :: ys
    else y :: insertSpanLex x ys

/-- Python `sorted` on `(start, end)` tuples (stable, lexicographic). -/
def sortSpans (l : List (Nat × Nat)) : List (Nat × Nat) :=
  l.foldr insertSpanLex []

/-- Stable insertion of a chunk-like element by an `Int` key. -/
def insertByKey {α : Type} (key : α → Int) (x : α) : List α → List α
  | [] => [x]
  | y :: ys => if key x ≤ key y then x :: y :: ys else y :: insertByKey key x ys

/-- Python `sorted(chunks, key=lambda x: x['start_pos'])` (stable). -/
def sortByKey {α : Type} (key : α → Int) (l : List α) : List α :=
  l.foldr (insertByKey key) []

/-!
## Heading regex

`extract_heading_structure` uses `re.finditer(r'^(#{1,6})\s+(.+)$', content,
re.MULTILINE)`.  `matchHead` decides whether the regex matches at the head of
a suffix (which the scanner only calls at line starts): one to six `#`, then
`\s+` (greedy, with backtracking so that `(.+)$` — at least one non-newline
character up to the end of the line — can still match), capturing the group-2
text and the total number of characters consumed.
-/

/-- Attempt the heading pattern at the head of `s`; returns
`(level, group2, consumed)` on success. -/
def matchHead (s : List Char) : Option (Nat × List Char × Nat) :=
  let hashes := s.takeWhile (· = '#')
  let r := hashes.length
  if r = 0 || 6 < r then none
  else
    let rest := s.drop r
    let w := rest.takeWhile pyIsSpace
    if w.length = 0 then none
    else
      -- greedy `\s+`: the largest j in [1, w.length] such that the character
      -- after the consumed whitespace exists and is not a newline
      match ((List.range (w.length + 1)).filter
          (fun j => decide (1 ≤ j) &&
            match (rest.drop j).head? with
            | some c => c ≠ '\n'
            | none => false)).getLast? with
      | none => none
      | some j =>
        let g2 := (rest.drop j).takeWhile (· ≠ '\n')
        some (r, g2, r + j + g2.length)

/-- Heading `finditer` scan: walks the text character by character, attempting
the pattern at each line start, and jumps over a match once found
(non-overlapping matches, like `re.finditer`).  Yields
`(position, level, group2)` triples. -/
def headingScanAux : Nat → List Char → Nat → Bool → List (Nat × Nat × List Char)
  | 0, _, _, _ => []
  | _, [], _, _ => []
  | fuel + 1, c :: rest, p, lineStart =>
    if lineStart then
      match matchHead (c :: rest) with
      | some (lvl, g2, consumed) =>
        (p, lvl, g2) ::
          headingScanAux fuel ((c :: rest).drop consumed) (p + consumed) false
      | none => headingScanAux fuel rest (p + 1) (c = '\n')
    else headingScanAux fuel rest (p + 1) (c = '\n')

/-- All matches of the heading pattern in `content`. -/
def headingScan (content : List Char) : List (Nat × Nat × List Char) :=
  headingScanAux content.length content 0 true

/-- Heading marker record (level, title, character position). -/
structure HeadingMarker where
  level : Nat
  title : List Char
  position : Nat
deriving Repr, DecidableEq

/-- markdown_chunker.py `extract_heading_structure`: regex markers, a
synthetic level-0 "Document Start" marker when no heading sits at position 0,
and a final synthetic level-0 "END" marker at the document length. -/
def extract_heading_structure (content : List Char) : List HeadingMarker :=
  let headings := (headingScan content).map
    (fun m => HeadingMarker.mk m.2.1 (pyStrip m.2.2) m.1)
  let headings2 :=
    if headings.isEmpty || (match headings.head? with
        | some h => 0 < h.position
        | none => true) then
      HeadingMarker.mk 0 "Document Start".toList 0 :: headings
    else headings
  headings2 ++ [HeadingMarker.mk 0 "END".toList content.length]

/-!
## Formula regexes

`extract_formula_boundaries` runs seven `re.finditer` patterns.  Six are of
the shape `OPEN [\s\S]*? CLOSE` with literal delimiters (lazy inner match:
the earliest closing delimiter wins); the seventh is inline math
`\$([^$\n]+?)\$` whose inner characters may contain neither `$` nor a
newline.
-/

/-- Earliest offset at which `sub` occurs in `s` (`[\s\S]*?` + literal). -/
def closeSearch (s sub : List Char) : Option Nat :=
  (List.range (s.length + 1)).find?
    (fun d => d + sub.length ≤ s.length && (s.drop d).take sub.length = sub)

/-- `finditer` for `OPEN [\s\S]*? CLOSE` with literal delimiters. -/
def delimitedScanAux (opN clN : List Char) : Nat → List Char → Nat → List (Nat × Nat)
  | 0, _, _ => []
  | _, [], _ => []
  | fuel + 1, s@(_ :: rest), p =>
    if s.take opN.length = opN && opN.length ≤ s.length then
      match closeSearch (s.drop opN.length) clN with
      | some d =>
        let len := opN.length + d + clN.length
        (p, p + len) :: delimitedScanAux opN clN fuel (s.drop len) (p + len)
      | none => delimitedScanAux opN clN fuel rest (p + 1)
    else delimitedScanAux opN clN fuel rest (p + 1)

/-- All matches of `OPEN [\s\S]*? CLOSE` in `text`. -/
def delimitedScan (opN clN : List Char) (text : List Char) : List (Nat × Nat) :=
  delimitedScanAux opN clN text.length text 0

/-- `finditer` for inline math `\$([^$\n]+?)\$`: a dollar, at least one
character that is neither `$` nor a newline (lazily, so the run stops at the
first dollar), and a closing dollar. -/
def inlineDollarScanAux : Nat → List Char → Nat → List (Nat × Nat)
  | 0, _, _ => []
  | _, [], _ => []
  | fuel + 1, c :: rest, p =>
    if c = '$' then
      let inner := rest.takeWhile (fun d => d ≠ '$' && d ≠ '\n')
      if inner.length = 0 then inlineDollarScanAux fuel rest (p + 1)
      else
        match (rest.drop inner.length).head? with
        | some '$' =>
          let len := inner.length + 2
          (p, p + len) :: inlineDollarScanAux fuel ((c :: rest).drop len) (p + len)
        | _ => inlineDollarScanAux fuel rest (p + 1)
    else inlineDollarScanAux fuel rest (p + 1)

/-- All matches of `\$([^$\n]+?)\$` in `text`. -/
def inlineDollarScan (text : List Char) : List (Nat × Nat) :=
  inlineDollarScanAux text.length text 0

/-- markdown_chunker.py `extract_formula_boundaries`: the `(start, end)`
pairs of all seven formula patterns, sorted by start position (Python
`sorted` on tuples: lexicographic on `(start, end)`). -/
def extract_formula_boundaries (text : List Char) : List (Nat × Nat) :=
  let env (name : String) : List (Nat × Nat) :=
    delimitedScan ("\\begin\x7b" ++ name ++ "\x7d").toList
      ("\\end\x7b" ++ name ++ "\x7d").toList text
  sortSpans
    (delimitedScan "$$".toList "$$".toList text ++
     inlineDollarScan text ++
     env "equation" ++ env "align" ++ env "eqnarray" ++
     env "gathered" ++ env "cases")

/-!
## Paragraph and sentence regexes

The splitter uses `re.finditer(r'\n\s*\n', ...)` (greedy `\s*`: the match
runs to the last newline of the whitespace run following the first newline)
and `re.finditer(r'(?<=[.!?])\s+', ...)` (a whitespace run preceded by a
sentence terminator).  `_get_overlap_text` uses `re.search` of the same
patterns, i.e. the first match.
-/

/-- `finditer` for `\n\s*\n`. -/
def paraScanAux : Nat → List Char → Nat → List (Nat × Nat)
  | 0, _, _ => []
  | _, [], _ => []
  | fuel + 1, c :: rest, p =>
    if c = '\n' then
      let w := rest.takeWhile pyIsSpace
      match ((List.range w.length).filter (fun j => w[j]? = some '\n')).getLast? with
      | some j =>
        (p, p + j + 2) :: paraScanAux fuel ((c :: rest).drop (j + 2)) (p + j + 2)
      | none => paraScanAux fuel rest (p + 1)
    else paraScanAux fuel rest (p + 1)

/-- All matches of `\n\s*\n` in `text`. -/
def paraScan (text : List Char) : List (Nat × Nat) :=
  paraScanAux text.length text 0

/-- `finditer` for `(?<=[.!?])\s+`; `prev` is the character before the
current position (the lookbehind). -/
def sentScanAux : Nat → List Char → Nat → Option Char → List (Nat × Nat)
  | 0, _, _, _ => []
  | _, [], _, _ => []
  | fuel + 1, c :: rest, p, prev =>
    if (prev = some '.' || prev = some '!' || prev = some '?') && pyIsSpace c then
      let run := (c :: rest).takeWhile pyIsSpace
      (p, p + run.length) ::
        sentScanAux fuel ((c :: rest).drop run.length) (p + run.length) run.getLast?
    else sentScanAux fuel rest (p + 1) (some c)

/-- All matches of `(?<=[.!?])\s+` in `text`. -/
def sentScan (text : List Char) : List (Nat × Nat) :=
  sentScanAux text.length text 0 none

/-!
## Chunk data model

The Python code builds chunk dictionaries; every creation site uses the same
seven keys.  Finalization adds `id` (an md5-derived fingerprint whose value
no claim depends on; only the presence of the key is tracked, via
`finalizedChunkFields`) and deletes `start_pos` / `end_pos`.
-/

/-- Configuration passed to `MarkdownChunker`. -/
structure Config where
  max_chunk_size : Nat
  overlap_size : Nat
  min_chunk_size : Nat
deriving Repr, DecidableEq

/-- A chunk dictionary as built by the splitting stages. -/
structure Chunk where
  content : List Char
  heading : List Char
  level : Nat
  path : List Char
  token_count : Nat
  start_pos : Int
  end_pos : Int
deriving Repr, DecidableEq

/-- A finalized chunk (positions deleted; the md5 `id` value is not
modelled, its key is recorded in `finalizedChunkFields`). -/
structure FinalChunk where
  content : List Char
  heading : List Char
  level : Nat
  path : List Char
  token_count : Nat
deriving Repr, DecidableEq

/-- The dictionary keys of every chunk record the splitter stages create
(lines 182-190, 278-300, 311-318, 337-344, 393-401, 415-423, 429-437 and
458-466 of markdown_chunker.py all use exactly these keys). -/
def chunkDictFields : List String :=
  ["content", "heading", "level", "path", "token_count", "start_pos", "end_pos"]

/-- Keys of a finalized chunk record: `create_semantic_chunks` appends `id`
and deletes `start_pos` and `end_pos` (lines 208-214). -/
def finalizedChunkFields : List String :=
  (chunkDictFields ++ ["id"]).filter (fun k => k ≠ "start_pos" && k ≠ "end_pos")

/-- Finalization keeps the remaining field values unchanged. -/
def finalizeChunk (c : Chunk) : FinalChunk :=
  ⟨c.content, c.heading, c.level, c.path, c.token_count⟩

/-- markdown_chunker.py `_get_overlap_text`: trailing-overlap text of a
closed chunk.  Walks the sorted formula spans in reverse and returns the
suffix from the first span (i.e. the last-sorted span) whose end lies past
`len(text) - overlap_size*4`; otherwise the whole text when it fits in the
overlap window, else the trailing window `text[-overlap_size*4:]` trimmed to
just after its first paragraph boundary, else just after its first sentence
boundary, else untrimmed. -/
def _get_overlap_text (cfg : Config) (text : List Char) : List Char :=
  let fb := extract_formula_boundaries text
  match fb.reverse.find?
      (fun se => decide ((text.length : Int) - (cfg.overlap_size * 4 : Nat) < (se.2 : Int))) with
  | some se => text.drop se.1
  | none =>
    let char_overlap := cfg.overlap_size * 4
    if text.length ≤ char_overlap then text
    else
      let overlap_text := pySlice text (-(char_overlap : Int)) (text.length : Int)
      match (paraScan overlap_text).head? with
      | some m => overlap_text.drop m.2
      | none =>
        match (sentScan overlap_text).head? with
        | some m => overlap_text.drop m.2
        | none => overlap_text

/-!
## Sentence-level splitting (`_split_by_sentences`)
-/

/-- The fixed-width fallback inside `_split_by_sentences` (lines 406-424):
successive `max_chunk_size*4`-character windows of an oversized sentence,
each window after the first re-sliced to include an overlap tail of the
preceding text.  `start_pos` is the absolute start of the enclosing
fragment and `lb` the sentence's offset in it. -/
def fixedWindows (cfg : Config) (heading : List Char) (level : Nat)
    (path : List Char) (start_pos : Int) (lb : Nat) (sentence : List Char) :
    List Chunk :=
  let cpc := cfg.max_chunk_size * 4
  let starts : List Nat :=
    if cpc = 0 then [] else (List.range ((sentence.length + cpc - 1) / cpc)).map (· * cpc)
  starts.map (fun i =>
    let window := listSlice sentence i (i + cpc)
    let chunk_text :=
      if 0 < i then
        let overlap_size_chars := min (cfg.overlap_size * 4) window.length
        pySlice sentence ((i : Int) - (overlap_size_chars : Int)) ((i : Int) + (cpc : Int))
      else window
    Chunk.mk chunk_text heading level path (estimate_tokens chunk_text)
      (start_pos + (lb : Int) + (i : Int))
      (start_pos + (lb : Int) + (i : Int) + (chunk_text.length : Int)))

/-- Loop body of `_split_by_sentences` (lines 385-454), iterating over the
sentence boundary list with the accumulator state
(`current_chunk_text`, `current_token_count`, `current_start`,
`last_boundary`) threaded explicitly. -/
def sbsLoop (cfg : Config) (heading : List Char) (level : Nat)
    (path : List Char) (start_pos : Int) (content : List Char) :
    List Nat → List Char → Nat → Nat → Nat → List Chunk
  | [], ct, tc, cs, _ =>
    if ct.isEmpty then []
    else [Chunk.mk ct heading level path tc (start_pos + (cs : Int))
      (start_pos + (cs : Int) + (ct.length : Int))]
  | b :: bs, ct, tc, cs, lb =>
    let sentence := pyStrip (listSlice content lb b)
    let stc := estimate_tokens sentence
    if cfg.max_chunk_size < stc then
      let flushed :=
        if ct.isEmpty then []
        else [Chunk.mk ct heading level path tc (start_pos + (cs : Int))
          (start_pos + (cs : Int) + (ct.length : Int))]
      flushed ++ fixedWindows cfg heading level path start_pos lb sentence ++
        sbsLoop cfg heading level path start_pos content bs [] 0 cs b
    else
      if cfg.max_chunk_size < tc + stc && !ct.isEmpty then
        let flushed := Chunk.mk ct heading level path tc (start_pos + (cs : Int))
          (start_pos + (cs : Int) + (ct.length : Int))
        let ov := _get_overlap_text cfg ct
        -- line 444 computes current_start + len(current_chunk_text) -
        -- len(overlap_text) after current_chunk_text was already replaced
        -- by the overlap text, so current_start is unchanged
        let cs1 := cs + ov.length - ov.length
        -- append step (lines 447-451): fresh start resets current_start
        -- to last_boundary when the overlap text is empty
        let ct1 := if ov.isEmpty then sentence else ov ++ [' '] ++ sentence
        let cs2 := if ov.isEmpty then lb else cs1
        flushed :: sbsLoop cfg heading level path start_pos content bs ct1
          (estimate_tokens ct1) cs2 b
      else
        let ct1 := if ct.isEmpty then sentence else ct ++ [' '] ++ sentence
        let cs1 := if ct.isEmpty then lb else cs
        sbsLoop cfg heading level path start_pos content bs ct1
          (estimate_tokens ct1) cs1 b

/-- markdown_chunker.py `_split_by_sentences`: sentence boundaries are the
starts of `(?<=[.!?])\s+` matches whose document-relative position
(`chunk start_pos + position`) lies in no formula span, plus the content
end; the boundary list is then folded into size-bounded chunks. -/
def _split_by_sentences (cfg : Config) (chunk : Chunk)
    (formula_boundaries : List (Nat × Nat)) : List Chunk :=
  let content := chunk.content
  let in_formula : Nat → Bool := fun pos =>
    formula_boundaries.any (fun se =>
      decide ((se.1 : Int) ≤ chunk.start_pos + (pos : Int)) &&
      decide (chunk.start_pos + (pos : Int) ≤ (se.2 : Int)))
  let sentence_boundaries :=
    ((sentScan content).filter (fun m => !in_formula m.1)).map (·.1) ++ [content.length]
  sbsLoop cfg chunk.heading chunk.level chunk.path chunk.start_pos content
    sentence_boundaries [] 0 0 0

/-!
## Paragraph-level splitting (`_split_large_chunk`)
-/

/-- The paragraph-boundary matches the splitter accepts: `\n\s*\n` matches
whose start position lies in no formula span (lines 239-254; the check
`start <= para_end <= end` is inclusive).  A rejected match changes neither
the paragraph list nor `last_pos`, so folding over the accepted matches is
the loop's behaviour. -/
def acceptedParaCuts (formula_boundaries : List (Nat × Nat))
    (cuts : List (Nat × Nat)) : List (Nat × Nat) :=
  cuts.filter (fun m =>
    !formula_boundaries.any (fun se => se.1 ≤ m.1 && m.1 ≤ se.2))

/-- The paragraph list of `_split_large_chunk` (lines 234-259): slices of
`content` between accepted cuts, stripped, empty slices dropped, plus the
final stripped remainder. -/
def paragraphsOf (content : List Char) (formula_boundaries : List (Nat × Nat)) :
    List (List Char) :=
  let step := (acceptedParaCuts formula_boundaries (paraScan content)).foldl
    (fun (st : List (List Char) × Nat) m =>
      let para := pyStrip (listSlice content st.2 m.1)
      (if para.isEmpty then st.1 else st.1 ++ [para], m.2))
    ([], 0)
  let final_para := pyStrip (content.drop step.2)
  if final_para.isEmpty then step.1 else step.1 ++ [final_para]

/-- Loop body of `_split_large_chunk` over the paragraph list
(lines 266-346), threading (`current_chunk_text`, `current_token_count`,
`current_start_pos`). -/
def plcLoop (cfg : Config) (chunk : Chunk)
    (formula_boundaries : List (Nat × Nat)) :
    List (List Char) → List Char → Nat → Int → List Chunk
  | [], ct, tc, cs =>
    if ct.isEmpty then []
    else [Chunk.mk ct chunk.heading chunk.level chunk.path tc cs
      (cs + (ct.length : Int))]
  | para :: paras, ct, tc, cs =>
    let ptc := estimate_tokens para
    if cfg.max_chunk_size < ptc then
      let flushed :=
        if ct.isEmpty then []
        else [Chunk.mk ct chunk.heading chunk.level chunk.path tc cs
          (cs + (ct.length : Int))]
      let f := pyFind chunk.content para cs
      let para_chunk := Chunk.mk para chunk.heading chunk.level chunk.path ptc
        (f + chunk.start_pos) (f + (para.length : Int) + chunk.start_pos)
      flushed ++ _split_by_sentences cfg para_chunk formula_boundaries ++
        plcLoop cfg chunk formula_boundaries paras [] 0 para_chunk.end_pos
    else
      if cfg.max_chunk_size < tc + ptc && !ct.isEmpty then
        let flushed := Chunk.mk ct chunk.heading chunk.level chunk.path tc cs
          (cs + (ct.length : Int))
        let ov := _get_overlap_text cfg ct
        let cs1 := flushed.end_pos - (ov.length : Int)
        let ct1 := if ov.isEmpty then para else ov ++ "\n\n".toList ++ para
        flushed :: plcLoop cfg chunk formula_boundaries paras ct1
          (estimate_tokens ct1) cs1
      else
        let ct1 := if ct.isEmpty then para else ct ++ "\n\n".toList ++ para
        plcLoop cfg chunk formula_boundaries paras ct1 (estimate_tokens ct1) cs

/-- markdown_chunker.py `_split_large_chunk`: split at accepted paragraph
boundaries; when at most one paragraph results and the chunk is oversized,
fall back to `_split_by_sentences` with the chunk-relative formula spans. -/
def _split_large_chunk (cfg : Config) (chunk : Chunk) : List Chunk :=
  let formula_boundaries := extract_formula_boundaries chunk.content
  let paragraphs := paragraphsOf chunk.content formula_boundaries
  if paragraphs.length ≤ 1 && cfg.max_chunk_size < chunk.token_count then
    _split_by_sentences cfg chunk formula_boundaries
  else
    plcLoop cfg chunk formula_boundaries paragraphs [] 0 chunk.start_pos

/-!
## Merging (`_merge_small_chunks`) and the full pipeline
-/

/-- Walk of `_merge_small_chunks` (lines 480-504): the next chunk is folded
into the accumulator when the accumulator is under the minimum size, level
and path agree, and the summed token counts stay within the maximum. -/
def mergeLoop (cfg : Config) : Chunk → List Chunk → List Chunk
  | current, [] => [current]
  | current, next :: rest =>
    if current.token_count < cfg.min_chunk_size &&
        current.level == next.level && current.path == next.path then
      if current.token_count + next.token_count ≤ cfg.max_chunk_size then
        mergeLoop cfg
          { current with
            content := current.content ++ "\n\n".toList ++ next.content,
            token_count := current.token_count + next.token_count,
            end_pos := next.end_pos }
          rest
      else current :: mergeLoop cfg next rest
    else current :: mergeLoop cfg next rest

/-- markdown_chunker.py `_merge_small_chunks`: sort by `start_pos`
(stable) and run the greedy merge walk. -/
def _merge_small_chunks (cfg : Config) (chunks : List Chunk) : List Chunk :=
  match sortByKey (fun c => c.start_pos) chunks with
  | [] => []
  | c :: rest => mergeLoop cfg c rest

/-- The section for marker pair `(i, i+1)` (lines 162-192): document slice
between the two markers, skipped when empty after strip; `path` is the
" > "-joined list of level>0 titles among markers 0..i, or "Root". -/
def mkSection (content : List Char) (hs : List HeadingMarker) (i : Nat) :
    Option Chunk :=
  match hs[i]?, hs[i + 1]? with
  | some cur, some nxt =>
    let chunk_content := listSlice content cur.position nxt.position
    if (pyStrip chunk_content).isEmpty then none
    else
      let titles := ((hs.take (i + 1)).filter (fun h => 0 < h.level)).map (·.title)
      some (Chunk.mk chunk_content
        (if 0 < cur.level then cur.title else "Document Start".toList)
        cur.level
        (if titles.isEmpty then "Root".toList
          else List.intercalate " > ".toList titles)
        (estimate_tokens chunk_content)
        (cur.position : Int) (nxt.position : Int))
  | _, _ => none

/-- The initial section chunks of `create_semantic_chunks`. -/
def initial_chunks (content : List Char) : List Chunk :=
  let hs := extract_heading_structure content
  (List.range (hs.length - 1)).filterMap (mkSection content hs)

/-- Sections within the size bound pass through; oversized sections are
split (lines 195-202). -/
def processed_chunks (cfg : Config) (content : List Char) : List Chunk :=
  (initial_chunks content).flatMap (fun ch =>
    if ch.token_count ≤ cfg.max_chunk_size then [ch] else _split_large_chunk cfg ch)

/-- The chunk list after the merge pass, still carrying positions. -/
def merged_chunks (cfg : Config) (content : List Char) : List Chunk :=
  _merge_small_chunks cfg (processed_chunks cfg content)

/-- markdown_chunker.py `create_semantic_chunks` on loaded content:
sections, size-bounded splitting, merge, finalization. -/
def create_semantic_chunks (cfg : Config) (content : List Char) :
    List FinalChunk :=
  (merged_chunks cfg content).map finalizeChunk

/-!
## File-level entry points

File reading is modelled by an `Option (List Char)`: `none` means the source
document cannot be read (the `except` branch of `load_markdown`), `some c`
a successful read of content `c`.  Saving is modelled as succeeding, with
`wrote` recording whether an output file was written at all.
-/

/-- markdown_chunker.py `load_markdown`: `True` iff the file was read. -/
def load_markdown (readResult : Option (List Char)) : Bool :=
  readResult.isSome

/-- `create_semantic_chunks` including the load step (lines 152-154): a
failed load yields the empty chunk list. -/
def semanticChunksFromFile (cfg : Config) (readResult : Option (List Char)) :
    List FinalChunk :=
  match readResult with
  | none => []
  | some content => create_semantic_chunks cfg content

/-- Result of `chunk_markdown_file`: the returned boolean and whether an
output file was written. -/
structure RunResult where
  success : Bool
  wrote : Bool
deriving Repr, DecidableEq

/-- chunking/chunker.py `chunk_markdown_file`: process, return `False`
without saving when no chunks were produced, otherwise save (modelled as
succeeding). -/
def chunk_markdown_file (cfg : Config) (readResult : Option (List Char)) :
    RunResult :=
  let chunks := semanticChunksFromFile cfg readResult
  if chunks.isEmpty then RunResult.mk false false else RunResult.mk true true

/-!
## Helper lemmas
-/

/-- Length bound for a Python slice with non-negative bounds. -/
theorem pySlice_length_le (l : List Char) (a b : Int) (ha : 0 ≤ a) (hb : 0 ≤ b) :
    (pySlice l a b).length ≤ (b - a).toNat := by
  simp only [pySlice, pyIdx, List.length_drop, List.length_take, Int.max_def]
  split_ifs <;> omega

/-- Length bound for a plain slice. -/
theorem listSlice_length_le (l : List Char) (a b : Nat) :
    (listSlice l a b).length ≤ b - a := by
  simp only [listSlice, List.length_drop, List.length_take]
  omega

/-!
## Claim C8
-/

/-- Claim C8: when the source document cannot be read, `load_markdown`
returns `False`, `create_semantic_chunks` returns the empty sequence,
`chunk_markdown_file` returns `False`, and no output file is written. -/
theorem C8_unreadable_source (cfg : Config) :
    load_markdown none = false ∧
    semanticChunksFromFile cfg none = [] ∧
    chunk_markdown_file cfg none = RunResult.mk false false :=
  ⟨rfl, rfl, rfl⟩

/-!
## Claim C3

No code path of markdown_chunker.py ever writes a `chunkType` (or
`chunk_type`) key: every chunk dictionary is created with the seven keys of
`chunkDictFields`, finalization adds `id` and removes the two position keys.
The repository's own analysis tooling (src/tests/chunk_analyzer.py, line 52)
reads `chunk.get('chunk_type', 'main_chunk')`, so every chunk is always
counted as a main chunk and the sub-chunk statistics are always zero.
-/

/-- Claim C3 (code bug): finalized chunk records carry exactly the fields
content, heading, level, path, token_count and id — there is no `chunkType`
field at all, although the chunker does produce output (here one chunk for
the document "ab"), so the splitter provenance marker claimed by the spec is
never emitted. -/
theorem C3_no_chunkType_field :
    finalizedChunkFields = ["content", "heading", "level", "path", "token_count", "id"] ∧
    "chunkType" ∉ finalizedChunkFields ∧ "chunk_type" ∉ finalizedChunkFields ∧
    (create_semantic_chunks ⟨1024, 200, 100⟩ "ab".toList).length = 1 := by
  refine ⟨by decide, by decide, by decide, by decide⟩

/-!
## Claim C4

The merge walk merges the next chunk into the accumulator iff the four
conditions of the claim hold — but the conditions are evaluated on the
accumulator, which may already aggregate earlier chunks.  An adjacent
pre-merge pair (A, B) satisfying the conditions can therefore end up
unmerged: once A has been absorbed into an earlier accumulator that reaches
the minimum size, B starts a fresh chunk.
-/

/-- Claim C4 (amended): one step of `_merge_small_chunks`' walk merges the
next chunk into the current accumulator (contents concatenated with a
blank-line separator, token counts summed, end_pos extended) if and only if
the accumulator's token count is below `min_chunk_size`, levels and paths
agree, and the summed token count stays within `max_chunk_size`. -/
theorem C4_merge_step (cfg : Config) (current next : Chunk) (rest : List Chunk) :
    mergeLoop cfg current (next :: rest) =
      if current.token_count < cfg.min_chunk_size ∧ current.level = next.level ∧
          current.path = next.path ∧
          current.token_count + next.token_count ≤ cfg.max_chunk_size then
        mergeLoop cfg
          { current with
            content := current.content ++ "\n\n".toList ++ next.content,
            token_count := current.token_count + next.token_count,
            end_pos := next.end_pos }
          rest
      else current :: mergeLoop cfg next rest := by
  by_cases h1 : current.token_count < cfg.min_chunk_size <;>
    by_cases h2 : current.level = next.level <;>
    by_cases h3 : current.path = next.path <;>
    by_cases h4 : current.token_count + next.token_count ≤ cfg.max_chunk_size <;>
    simp [mergeLoop, h1, h2, h3, h4]

/-- Claim C4 counterexample: with minChunkSize 3 and maxChunkSize 10, the
pre-merge sequence [X, A, B] (all level 1, path "P", token counts 2, 2, 1)
merges X and A into an accumulator of size 4 ≥ 3, after which B is flushed
separately — so the adjacent pre-merge pair (A, B) has equal level and path,
tokenCount(A) = 2 < 3 and tokenCount(A) + tokenCount(B) = 3 ≤ 10, yet A and
B appear unmerged (in different chunks) in the final output, refuting the
claim's consequent. -/
theorem C4_counterexample :
    let X : Chunk := ⟨List.replicate 8 'a', ['h'], 1, ['P'], 2, 0, 8⟩
    let A : Chunk := ⟨List.replicate 8 'b', ['h'], 1, ['P'], 2, 8, 16⟩
    let B : Chunk := ⟨List.replicate 4 'c', ['h'], 1, ['P'], 1, 16, 20⟩
    _merge_small_chunks ⟨10, 1, 3⟩ [X, A, B] =
      [⟨List.replicate 8 'a' ++ "\n\n".toList ++ List.replicate 8 'b',
        ['h'], 1, ['P'], 4, 0, 16⟩, B] ∧
    A.level = B.level ∧ A.path = B.path ∧
    A.token_count < 3 ∧ A.token_count + B.token_count ≤ 10 := by
  refine ⟨by decide, rfl, rfl, by decide, by decide⟩

/-!
## Claim C1

The size bound fails beyond the claim's degenerate-oversize exception, in
two distinct ways.  A fixed-width window re-sliced to include its overlap
tail is emitted without any size re-check (its true bound is
`max_chunk_size + overlap_size`).  And even a chunk closed by the "would
adding the next unit exceed the limit" check can exceed the bound: the
guard compares `current_token_count + unit_token_count`, but the append
then recomputes the accumulator's count as the estimate of the joined text
(separator included), which can exceed the sum the guard tested — the
overshoot surfaces when that accumulator is later flushed.
-/

/-- Claim C1 counterexample, two parts sharing the configuration
maxChunkSize 2, overlapSize 1, minChunkSize 0 (which satisfies the claim's
constraints).  (1) The 17-character document of 'a's — one long unit with
no paragraph or sentence boundary — is chunked by the fixed-width pass into
chunks of 2, 3 and 1 tokens; the middle chunk is exactly the second
fixed-width window plus its 4-character overlap tail (`doc[4:16]`), and its
token count 3 exceeds maxChunkSize 2, refuting "a fixed-width window plus
its overlap prefix never exceeds maxChunkSize".  (2) The document
"aaaaaa. bbbbbb. ccc." yields the chunk "aaaaaa. bbbbbb." with token count
3: it was closed by the "would adding the next unit exceed the limit"
check when "ccc." arrived, yet exceeds maxChunkSize 2, because the two
appended sentences passed the guard as 1 + 1 ≤ 2 while the joined
15-character text re-estimates to 3 — so the overshoot is not confined to
fixed-width windows and is not traceable to any single unit exceeding the
bound (every sentence here is 1 token). -/
theorem C1_counterexample :
    let doc := List.replicate 17 'a'
    let doc2 := "aaaaaa. bbbbbb. ccc.".toList
    let cfg : Config := ⟨2, 1, 0⟩
    cfg.min_chunk_size < cfg.max_chunk_size ∧
    cfg.overlap_size < cfg.max_chunk_size ∧
    (create_semantic_chunks cfg doc).map FinalChunk.token_count = [2, 3, 1] ∧
    ((create_semantic_chunks cfg doc).map FinalChunk.content)[1]? =
      some (pySlice doc 4 16) ∧
    (create_semantic_chunks cfg doc2).map
      (fun c => (c.content, c.token_count)) =
      [("aaaaaa. bbbbbb.".toList, 3), ("bbb. ccc.".toList, 2)] ∧
    estimate_tokens "aaaaaa.".toList = 1 ∧
    estimate_tokens "bbbbbb.".toList = 1 ∧
    estimate_tokens "ccc.".toList = 1 ∧
    cfg.max_chunk_size < 3 := by
  refine ⟨by decide, by decide, by decide, by decide, by decide, by decide,
    by decide, by decide, by decide⟩

/-- Claim C1 (amended): each chunk emitted by the fixed-width pass — a
window plus its overlap tail — has token count at most
`max_chunk_size + overlap_size` (rather than `max_chunk_size`, which the
counterexample shows can be exceeded). -/
theorem C1_fixed_window_bound (cfg : Config) (heading : List Char)
    (level : Nat) (path : List Char) (start_pos : Int) (lb : Nat)
    (sentence : List Char) (hov : cfg.overlap_size < cfg.max_chunk_size) :
    ∀ ch ∈ fixedWindows cfg heading level path start_pos lb sentence,
      ch.token_count ≤ cfg.max_chunk_size + cfg.overlap_size := by
  intro ch hch
  unfold fixedWindows at hch
  have hcpc : ¬ (cfg.max_chunk_size * 4 = 0) := by omega
  simp only [if_neg hcpc, List.mem_map, List.mem_range] at hch
  obtain ⟨i, ⟨k, hk, rfl⟩, rfl⟩ := hch
  have hik : k * (cfg.max_chunk_size * 4) = 0 ∨
      cfg.max_chunk_size * 4 ≤ k * (cfg.max_chunk_size * 4) := by
    rcases Nat.eq_zero_or_pos k with h0 | h1
    · exact Or.inl (by rw [h0, Nat.zero_mul])
    · exact Or.inr (Nat.le_mul_of_pos_left _ h1)
  generalize k * (cfg.max_chunk_size * 4) = i at *
  dsimp only
  by_cases hi0 : 0 < i
  · have hcl : cfg.max_chunk_size * 4 ≤ i := by omega
    rw [if_pos hi0]
    have hosc_le : min (cfg.overlap_size * 4)
        (listSlice sentence i (i + cfg.max_chunk_size * 4)).length ≤
          cfg.overlap_size * 4 := Nat.min_le_left _ _
    set osc := min (cfg.overlap_size * 4)
      (listSlice sentence i (i + cfg.max_chunk_size * 4)).length with hosc
    have hlen := pySlice_length_le sentence ((i : Int) - (osc : Int))
      ((i : Int) + ((cfg.max_chunk_size * 4 : Nat) : Int)) (by omega) (by omega)
    simp only [estimate_tokens]
    omega
  · rw [if_neg hi0]
    have hlen := listSlice_length_le sentence i (i + cfg.max_chunk_size * 4)
    simp only [estimate_tokens]
    omega

/-- Witness for `C1_fixed_window_bound`: the oversized middle chunk of the
counterexample is indeed bounded by `max_chunk_size + overlap_size = 3`. -/
theorem C1_fixed_window_bound_witness :
    (Chunk.mk (List.replicate 12 'a') ['h'] 0 ['R'] 3 8 20).token_count ≤ 2 + 1 :=
  C1_fixed_window_bound ⟨2, 1, 0⟩ ['h'] 0 ['R'] 0 0 (List.replicate 17 'a')
    (by decide) _ (by decide)

/-!
## Claim C2

The paragraph pass rejects cut candidates inside formula spans
(inclusively), but the fixed-width pass slices an oversized sentence at
arbitrary multiples of `max_chunk_size * 4` characters with no formula
check at all, so its cuts can land strictly inside a `$$...$$` span.
(The sentence pass checks candidates only after offsetting them by the
fragment's absolute `start_pos`, against fragment-relative span positions,
so its check is only aligned for fragments starting at position 0.)
-/

/-- Claim C2 counterexample: for the document "aaaaaa$$bb$$aaaaa" with
maxChunkSize 2, overlapSize 1, minChunkSize 0, the span (6, 12) of the
`$$bb$$` block is detected, yet the first emitted chunk's content is
exactly the document's first 8 characters: the boundary where its content
ends (position 8) falls strictly inside the span (6 < 8 < 12).  The cut was
chosen by the fixed-width pass, which has no formula awareness. -/
theorem C2_counterexample :
    let doc := "aaaaaa$$bb$$aaaaa".toList
    let cfg : Config := ⟨2, 1, 0⟩
    extract_formula_boundaries doc = [(6, 12), (7, 11)] ∧
    (create_semantic_chunks cfg doc).map FinalChunk.content =
      ["aaaaaa$$".toList, "aa$$bb$$aaaa".toList, "aa".toList] ∧
    ((create_semantic_chunks cfg doc).map FinalChunk.content)[0]? =
      some (doc.take 8) ∧
    (6 < 8 ∧ 8 < 12) := by
  refine ⟨by decide, by decide, by decide, by decide⟩

/-- Claim C2 (amended): every cut candidate the paragraph pass accepts lies
outside every detected formula span (the rejection test
`start <= cut <= end` is inclusive, so in particular no accepted cut is
strictly inside a span); the sentence and fixed-width passes give no such
guarantee. -/
theorem C2_paragraph_cuts_safe (formula_boundaries cuts : List (Nat × Nat)) :
    ∀ m ∈ acceptedParaCuts formula_boundaries cuts,
      ∀ se ∈ formula_boundaries, ¬ (se.1 ≤ m.1 ∧ m.1 ≤ se.2) := by
  intro m hm se hse h
  have h2 := (List.mem_filter.mp hm).2
  simp only [Bool.not_eq_true', List.any_eq_false, Bool.and_eq_true,
    decide_eq_true_eq] at h2
  exact absurd h (by simpa using h2 se hse)

/-- Witness for `C2_paragraph_cuts_safe` at a concrete accepted cut. -/
theorem C2_paragraph_cuts_safe_witness :
    ¬ ((6 : Nat) ≤ 0 ∧ (0 : Nat) ≤ 12) :=
  C2_paragraph_cuts_safe [(6, 12)] [(0, 2)] (0, 2) (by decide) (6, 12) (by decide)

/-!
## Claim C5

`_get_overlap_text` walks the `(start, end)`-sorted span list in reverse and
returns the suffix from the first span found whose end lies past the window
start.  A single-line `$$...$$` block also produces a nested inline `$...$`
span one character further right, which sorts later and is therefore found
first: the overlap then starts strictly inside the `$$` block.
-/

/-- A formula span ends strictly within the trailing overlap window:
`end > len(text) - overlap_size*4` (Python integer arithmetic, so the
right-hand side may be negative). -/
@[reducible] def spanEndsInWindow (cfg : Config) (text : List Char)
    (se : Nat × Nat) : Prop :=
  (text.length : Int) - (cfg.overlap_size * 4 : Nat) < (se.2 : Int)

/-- The trailing overlap window `text[-overlap_size*4:]` (for
`overlap_size = 0` this Python slice is the whole text). -/
def overlapWindow (cfg : Config) (text : List Char) : List Char :=
  pySlice text (-(cfg.overlap_size * 4 : Nat) : Int) (text.length : Int)

/-- Claim C5 counterexample: for text "aaaa$$bbbbbb$$" with overlapSize 1,
the `$$...$$` block is the detected span (4, 14) and spans the trailing
4-character window, but the nested inline `$...$` span (5, 13) sorts later
and is found first by the reversed walk: the overlap text is the suffix from
position 5 — strictly inside the `$$` block (4 < 5 < 14), not the suffix
from the `$$` opening at position 4.  This refutes the claim's "the overlap
starts at the $$ opening, never mid-formula". -/
theorem C5_counterexample :
    let text := "aaaa$$bbbbbb$$".toList
    let cfg : Config := ⟨10, 1, 0⟩
    extract_formula_boundaries text = [(4, 14), (5, 13)] ∧
    spanEndsInWindow cfg text (4, 14) ∧
    _get_overlap_text cfg text = text.drop 5 ∧
    text.drop 5 ≠ text.drop 4 ∧ (4 < 5 ∧ 5 < 14) := by
  refine ⟨by decide, by decide, by decide, by decide, by decide⟩

/-- Unfolding of `_get_overlap_text` in `Option.elim` form. -/
theorem get_overlap_text_eq (cfg : Config) (text : List Char) :
    _get_overlap_text cfg text =
      ((extract_formula_boundaries text).reverse.find?
        (fun se => decide ((text.length : Int) - (cfg.overlap_size * 4 : Nat) <
          (se.2 : Int)))).elim
        (if text.length ≤ cfg.overlap_size * 4 then text
         else
           ((paraScan (overlapWindow cfg text)).head?).elim
             (((sentScan (overlapWindow cfg text)).head?).elim
               (overlapWindow cfg text)
               (fun m => (overlapWindow cfg text).drop m.2))
             (fun m => (overlapWindow cfg text).drop m.2))
        (fun se => text.drop se.1) := by
  unfold _get_overlap_text overlapWindow
  dsimp only
  rcases hf : (extract_formula_boundaries text).reverse.find?
      (fun se => decide ((text.length : Int) - (cfg.overlap_size * 4 : Nat) <
        (se.2 : Int))) with _ | se
  · rw [hf]
    split_ifs with h
    · rfl
    · rcases (paraScan (pySlice text (-(cfg.overlap_size * 4 : Nat) : Int)
          (text.length : Int))).head? with _ | m
      · rcases (sentScan (pySlice text (-(cfg.overlap_size * 4 : Nat) : Int)
            (text.length : Int))).head? with _ | m <;> rfl
      · rfl
  · rw [hf]
    rfl

/-- Claim C5 (amended): `_get_overlap_text` returns (a) the suffix of `text`
from the start of some detected span ending within the trailing window when
one exists (the last such span in the sorted list — possibly an inline span
nested inside a `$$...$$` block, so the overlap can start mid-formula);
otherwise (b) the entire text when it is no longer than `overlap_size*4`;
otherwise the trailing window `text[-overlap_size*4:]`, trimmed to start
(c) after its first paragraph boundary when one exists, else (d) after its
first sentence boundary when one exists, else (e) untrimmed. -/
theorem C5_overlap_characterization (cfg : Config) (text : List Char) :
    ((∃ se ∈ extract_formula_boundaries text, spanEndsInWindow cfg text se) →
      ∃ se ∈ extract_formula_boundaries text, spanEndsInWindow cfg text se ∧
        _get_overlap_text cfg text = text.drop se.1) ∧
    ((∀ se ∈ extract_formula_boundaries text, ¬ spanEndsInWindow cfg text se) →
      (text.length ≤ cfg.overlap_size * 4 → _get_overlap_text cfg text = text) ∧
      (cfg.overlap_size * 4 < text.length →
        (∀ m, (paraScan (overlapWindow cfg text)).head? = some m →
          _get_overlap_text cfg text = (overlapWindow cfg text).drop m.2) ∧
        ((paraScan (overlapWindow cfg text)).head? = none →
          (∀ m, (sentScan (overlapWindow cfg text)).head? = some m →
            _get_overlap_text cfg text = (overlapWindow cfg text).drop m.2) ∧
          ((sentScan (overlapWindow cfg text)).head? = none →
            _get_overlap_text cfg text = overlapWindow cfg text)))) := by
  constructor
  · rintro ⟨se, hse, hwin⟩
    have hsome : ((extract_formula_boundaries text).reverse.find?
        (fun se => decide ((text.length : Int) - (cfg.overlap_size * 4 : Nat) <
          (se.2 : Int)))).isSome := by
      rw [List.find?_isSome]
      exact ⟨se, List.mem_reverse.mpr hse, decide_eq_true hwin⟩
    obtain ⟨se', hfind⟩ := Option.isSome_iff_exists.mp hsome
    have hpred := List.find?_some hfind
    simp only [decide_eq_true_eq] at hpred
    refine ⟨se', List.mem_reverse.mp (List.mem_of_find?_eq_some hfind),
      hpred, ?_⟩
    rw [get_overlap_text_eq, hfind, Option.elim_some]
  · intro hall
    have hnone : ((extract_formula_boundaries text).reverse.find?
        (fun se => decide ((text.length : Int) - (cfg.overlap_size * 4 : Nat) <
          (se.2 : Int)))) = none := by
      rw [List.find?_eq_none]
      intro x hx
      simpa using hall x (List.mem_reverse.mp hx)
    constructor
    · intro hlen
      rw [get_overlap_text_eq, hnone, Option.elim_none, if_pos hlen]
    · intro hlen
      have hif : ¬ (text.length ≤ cfg.overlap_size * 4) := by omega
      refine ⟨?_, ?_⟩
      · intro m hm
        rw [get_overlap_text_eq, hnone, Option.elim_none, if_neg hif, hm,
          Option.elim_some]
      · intro hpnone
        constructor
        · intro m hm
          rw [get_overlap_text_eq, hnone, Option.elim_none, if_neg hif,
            hpnone, Option.elim_none, hm, Option.elim_some]
        · intro hsnone
          rw [get_overlap_text_eq, hnone, Option.elim_none, if_neg hif,
            hpnone, Option.elim_none, hsnone, Option.elim_none]

/-- Witness for `C5_overlap_characterization`: for the multi-line block
"aaaa$$bb\nbb$$" (whose inner newline suppresses the nested inline span)
the formula branch applies. -/
theorem C5_overlap_characterization_witness :
    ∃ se ∈ extract_formula_boundaries "aaaa$$bb\nbb$$".toList,
      spanEndsInWindow ⟨10, 1, 0⟩ "aaaa$$bb\nbb$$".toList se ∧
        _get_overlap_text ⟨10, 1, 0⟩ "aaaa$$bb\nbb$$".toList =
          "aaaa$$bb\nbb$$".toList.drop se.1 :=
  (C5_overlap_characterization ⟨10, 1, 0⟩ "aaaa$$bb\nbb$$".toList).1
    ⟨(4, 13), by decide, by decide⟩

/-!
## Claim C7
-/

/-- Claim C7: every emitted section's path is the " > "-joined list of the
titles of all level>0 markers up to and including its leading marker (in
document order), or "Root" when no such marker exists; and on the document
"# A\n\ntext1\n\n## B\ntext2" with a large maxChunkSize the pipeline emits
exactly two chunks, with heading "A" / path "A" and heading "B" /
path "A > B". -/
theorem C7_path_and_scenario :
    (∀ (content : List Char) (i : Nat) (ch : Chunk),
      mkSection content (extract_heading_structure content) i = some ch →
      ch.path =
        (if (((((extract_heading_structure content).take (i + 1)).filter
              (fun m => 0 < m.level)).map HeadingMarker.title)).isEmpty then
          "Root".toList
        else List.intercalate " > ".toList
          (((((extract_heading_structure content).take (i + 1)).filter
              (fun m => 0 < m.level)).map HeadingMarker.title)))) ∧
    ((create_semantic_chunks ⟨1024, 200, 100⟩
        "# A\n\ntext1\n\n## B\ntext2".toList).map
          (fun c => (c.heading, c.path)) =
      [("A".toList, "A".toList), ("B".toList, "A > B".toList)] ∧
     (create_semantic_chunks ⟨1024, 200, 100⟩
        "# A\n\ntext1\n\n## B\ntext2".toList).length = 2) := by
  refine ⟨?_, by decide, by decide⟩
  intro content i ch h
  unfold mkSection at h
  rcases h1 : (extract_heading_structure content)[i]? with _ | cur
  · rw [h1] at h
    dsimp only at h
    cases h
  rcases h2 : (extract_heading_structure content)[i + 1]? with _ | nxt
  · rw [h1, h2] at h
    dsimp only at h
    cases h
  rw [h1, h2] at h
  dsimp only at h
  by_cases hstrip :
      (pyStrip (listSlice content cur.position nxt.position)).isEmpty = true
  · rw [if_pos hstrip] at h
    cases h
  · rw [if_neg hstrip] at h
    obtain rfl := Option.some_inj.mp h
    rfl

/-- Witness for the universal part of `C7_path_and_scenario`, at section 0
of the scenario document. -/
theorem C7_path_witness :
    (Chunk.mk "# A\n\ntext1\n\n".toList "A".toList 1 "A".toList 3 0 12).path =
      (if (((((extract_heading_structure
            "# A\n\ntext1\n\n## B\ntext2".toList).take (0 + 1)).filter
            (fun m => 0 < m.level)).map HeadingMarker.title)).isEmpty then
        "Root".toList
      else List.intercalate " > ".toList
        (((((extract_heading_structure
            "# A\n\ntext1\n\n## B\ntext2".toList).take (0 + 1)).filter
            (fun m => 0 < m.level)).map HeadingMarker.title))) :=
  C7_path_and_scenario.1 "# A\n\ntext1\n\n## B\ntext2".toList 0
    (Chunk.mk "# A\n\ntext1\n\n".toList "A".toList 1 "A".toList 3 0 12)
    (by decide)

/-!
## Claim C9

Every chunk created by the slicing and splitting stages carries
`token_count = estimate_tokens content` (the accumulator's count is
recomputed from the accumulated text after every append and every overlap
seed, and every flush copies it).  The merge pass instead sums the two
stored counts and concatenates the contents with a two-character separator,
so a merged chunk's stored count can differ from `estimate_tokens` of its
content.
-/

/-- Fixed-width windows carry the estimate of their own content. -/
theorem fixedWindows_token_eq (cfg : Config) (heading : List Char)
    (level : Nat) (path : List Char) (start_pos : Int) (lb : Nat)
    (sentence : List Char) :
    ∀ ch ∈ fixedWindows cfg heading level path start_pos lb sentence,
      ch.token_count = estimate_tokens ch.content := by
  intro ch hch
  unfold fixedWindows at hch
  simp only [List.mem_map] at hch
  obtain ⟨i, _, rfl⟩ := hch
  rfl

/-- The sentence-pass loop emits only chunks whose token count is the
estimate of their content, given the accumulator invariant. -/
theorem sbsLoop_token_eq (cfg : Config) (heading : List Char) (level : Nat)
    (path : List Char) (start_pos : Int) (content : List Char) :
    ∀ (bs : List Nat) (ct : List Char) (tc cs lb : Nat),
      (ct.isEmpty = false → tc = estimate_tokens ct) →
      ∀ ch ∈ sbsLoop cfg heading level path start_pos content bs ct tc cs lb,
        ch.token_count = estimate_tokens ch.content := by
  intro bs
  induction bs with
  | nil =>
    intro ct tc cs lb hinv ch hch
    unfold sbsLoop at hch
    by_cases he : ct.isEmpty = true
    · rw [if_pos he] at hch
      simp at hch
    · rw [if_neg he] at hch
      obtain rfl := List.mem_singleton.mp hch
      simpa using hinv (by simpa using he)
  | cons b bs ih =>
    intro ct tc cs lb hinv ch hch
    simp only [sbsLoop] at hch
    by_cases h1 : cfg.max_chunk_size < estimate_tokens (pyStrip (listSlice content lb b))
    · rw [if_pos h1] at hch
      rcases List.mem_append.mp hch with h | h
      · rcases List.mem_append.mp h with h' | h'
        · by_cases he : ct.isEmpty = true
          · rw [if_pos he] at h'
            simp at h'
          · rw [if_neg he] at h'
            obtain rfl := List.mem_singleton.mp h'
            simpa using hinv (by simpa using he)
        · exact fixedWindows_token_eq cfg heading level path start_pos lb
            (pyStrip (listSlice content lb b)) ch h'
      · exact ih [] 0 cs b (by intro hx; simp at hx) ch h
    · rw [if_neg h1] at hch
      by_cases h2 : (decide (cfg.max_chunk_size <
          tc + estimate_tokens (pyStrip (listSlice content lb b))) &&
          !ct.isEmpty) = true
      · rw [if_pos h2] at hch
        rcases List.mem_cons.mp hch with rfl | h
        · have hne : ct.isEmpty = false := by
            have h2' := h2
            simp at h2'
            simpa using h2'.2
          simpa using hinv hne
        · exact ih _ _ _ _ (fun _ => rfl) ch h
      · rw [if_neg h2] at hch
        exact ih _ _ _ _ (fun _ => rfl) ch hch

/-- `_split_by_sentences` emits only chunks whose token count is the
estimate of their content. -/
theorem split_by_sentences_token_eq (cfg : Config) (chunk : Chunk)
    (fb : List (Nat × Nat)) :
    ∀ ch ∈ _split_by_sentences cfg chunk fb,
      ch.token_count = estimate_tokens ch.content := by
  intro ch hch
  unfold _split_by_sentences at hch
  exact sbsLoop_token_eq cfg chunk.heading chunk.level chunk.path
    chunk.start_pos chunk.content _ [] 0 0 0 (by intro hx; simp at hx) ch hch

/-- The paragraph-pass loop emits only chunks whose token count is the
estimate of their content, given the accumulator invariant. -/
theorem plcLoop_token_eq (cfg : Config) (chunk : Chunk)
    (fb : List (Nat × Nat)) :
    ∀ (paras : List (List Char)) (ct : List Char) (tc : Nat) (cs : Int),
      (ct.isEmpty = false → tc = estimate_tokens ct) →
      ∀ ch ∈ plcLoop cfg chunk fb paras ct tc cs,
        ch.token_count = estimate_tokens ch.content := by
  intro paras
  induction paras with
  | nil =>
    intro ct tc cs hinv ch hch
    unfold plcLoop at hch
    by_cases he : ct.isEmpty = true
    · rw [if_pos he] at hch
      simp at hch
    · rw [if_neg he] at hch
      obtain rfl := List.mem_singleton.mp hch
      simpa using hinv (by simpa using he)
  | cons para paras ih =>
    intro ct tc cs hinv ch hch
    simp only [plcLoop] at hch
    by_cases h1 : cfg.max_chunk_size < estimate_tokens para
    · rw [if_pos h1] at hch
      rcases List.mem_append.mp hch with h | h
      · rcases List.mem_append.mp h with h' | h'
        · by_cases he : ct.isEmpty = true
          · rw [if_pos he] at h'
            simp at h'
          · rw [if_neg he] at h'
            obtain rfl := List.mem_singleton.mp h'
            simpa using hinv (by simpa using he)
        · exact split_by_sentences_token_eq cfg _ fb ch h'
      · exact ih [] 0 _ (by intro hx; simp at hx) ch h
    · rw [if_neg h1] at hch
      by_cases h2 : (decide (cfg.max_chunk_size < tc + estimate_tokens para) &&
          !ct.isEmpty) = true
      · rw [if_pos h2] at hch
        rcases List.mem_cons.mp hch with rfl | h
        · have hne : ct.isEmpty = false := by
            have h2' := h2
            simp at h2'
            simpa using h2'.2
          simpa using hinv hne
        · exact ih _ _ _ (fun _ => rfl) ch h
      · rw [if_neg h2] at hch
        exact ih _ _ _ (fun _ => rfl) ch hch

/-- `_split_large_chunk` emits only chunks whose token count is the
estimate of their content. -/
theorem split_large_chunk_token_eq (cfg : Config) (chunk : Chunk) :
    ∀ ch ∈ _split_large_chunk cfg chunk,
      ch.token_count = estimate_tokens ch.content := by
  intro ch hch
  unfold _split_large_chunk at hch
  dsimp only at hch
  by_cases hp : (decide ((paragraphsOf chunk.content
      (extract_formula_boundaries chunk.content)).length ≤ 1) &&
      decide (cfg.max_chunk_size < chunk.token_count)) = true
  · rw [if_pos hp] at hch
    exact split_by_sentences_token_eq cfg chunk _ ch hch
  · rw [if_neg hp] at hch
    exact plcLoop_token_eq cfg chunk _ _ [] 0 chunk.start_pos
      (by intro hx; simp at hx) ch hch

/-- Sections carry the estimate of their own content. -/
theorem mkSection_token_eq (content : List Char) (hs : List HeadingMarker)
    (i : Nat) (ch : Chunk) (h : mkSection content hs i = some ch) :
    ch.token_count = estimate_tokens ch.content := by
  unfold mkSection at h
  rcases h1 : hs[i]? with _ | cur
  · rw [h1] at h
    dsimp only at h
    cases h
  rcases h2 : hs[i + 1]? with _ | nxt
  · rw [h1, h2] at h
    dsimp only at h
    cases h
  rw [h1, h2] at h
  dsimp only at h
  by_cases hstrip :
      (pyStrip (listSlice content cur.position nxt.position)).isEmpty = true
  · rw [if_pos hstrip] at h
    cases h
  · rw [if_neg hstrip] at h
    obtain rfl := Option.some_inj.mp h
    rfl

/-- Claim C9: every chunk in the pre-merge sequence (sections and
splitter output) has `token_count = max(1, len(content) // 4)`, hence at
least 1; a merged chunk instead carries the sum of its constituents'
counts, which ignores the inserted blank-line separator, so it can differ
from the estimate of its own content (here: stored 2, estimate 3). -/
theorem C9_token_count_invariant :
    (∀ (cfg : Config) (content : List Char) (ch : Chunk),
      ch ∈ processed_chunks cfg content →
      ch.token_count = estimate_tokens ch.content ∧ 1 ≤ ch.token_count) ∧
    (let mergedA : Chunk := ⟨List.replicate 6 'a', ['h'], 1, ['P'], 1, 0, 6⟩
     let mergedB : Chunk := ⟨List.replicate 6 'b', ['h'], 1, ['P'], 1, 6, 12⟩
     _merge_small_chunks ⟨10, 1, 2⟩ [mergedA, mergedB] =
       [⟨List.replicate 6 'a' ++ "\n\n".toList ++ List.replicate 6 'b',
         ['h'], 1, ['P'], 2, 0, 12⟩] ∧
     mergedA.token_count + mergedB.token_count = 2 ∧
     estimate_tokens (List.replicate 6 'a' ++ "\n\n".toList ++
       List.replicate 6 'b') = 3) := by
  refine ⟨?_, by decide, by decide, by decide⟩
  intro cfg content ch hch
  have heq : ch.token_count = estimate_tokens ch.content := by
    unfold processed_chunks at hch
    rw [List.mem_flatMap] at hch
    obtain ⟨sec, hsec, hch⟩ := hch
    have hsec_tok : sec.token_count = estimate_tokens sec.content := by
      unfold initial_chunks at hsec
      rw [List.mem_filterMap] at hsec
      obtain ⟨i, _, hmk⟩ := hsec
      exact mkSection_token_eq _ _ i sec hmk
    by_cases hle : sec.token_count ≤ cfg.max_chunk_size
    · rw [if_pos hle] at hch
      obtain rfl := List.mem_singleton.mp hch
      exact hsec_tok
    · rw [if_neg hle] at hch
      exact split_large_chunk_token_eq cfg sec ch hch
  refine ⟨heq, ?_⟩
  rw [heq]
  exact le_max_left 1 _

/-- Witness for the universal part of `C9_token_count_invariant`, at the
single pre-merge chunk of the document "ab". -/
theorem C9_token_count_witness :
    (Chunk.mk "ab".toList "Document Start".toList 0 "Root".toList 1 0 2).token_count =
      estimate_tokens "ab".toList ∧
    1 ≤ (Chunk.mk "ab".toList "Document Start".toList 0 "Root".toList 1 0 2).token_count :=
  C9_token_count_invariant.1 ⟨1024, 200, 100⟩ "ab".toList
    (Chunk.mk "ab".toList "Document Start".toList 0 "Root".toList 1 0 2)
    (by decide)

/-!
## Claim C10
-/

/-- The heading pattern never matches at a whitespace character. -/
theorem matchHead_ws (c : Char) (rest : List Char) (hc : pyIsSpace c = true) :
    matchHead (c :: rest) = none := by
  have hne : ¬ (c = '#') := by
    rintro rfl
    simp [pyIsSpace] at hc
  simp [matchHead, List.takeWhile_cons, hne]

/-- A whitespace-only suffix contains no heading match. -/
theorem headingScanAux_ws : ∀ (fuel : Nat) (s : List Char) (p : Nat) (ls : Bool),
    (∀ c ∈ s, pyIsSpace c = true) → headingScanAux fuel s p ls = [] := by
  intro fuel
  induction fuel with
  | zero => intro s p ls _; cases s <;> rfl
  | succ fuel ih =>
    intro s p ls hs
    cases s with
    | nil => rfl
    | cons c rest =>
      have hc := hs c (List.mem_cons_self c rest)
      have hmh := matchHead_ws c rest hc
      have htail : ∀ x ∈ rest, pyIsSpace x = true :=
        fun x hx => hs x (List.mem_cons_of_mem c hx)
      unfold headingScanAux
      by_cases hls : ls = true
      · rw [if_pos hls, hmh]
        exact ih rest (p + 1) (c = '\n') htail
      · rw [if_neg hls]
        exact ih rest (p + 1) (c = '\n') htail

/-- `str.strip` of whitespace-only text is empty. -/
theorem pyStrip_ws (l : List Char) (h : ∀ c ∈ l, pyIsSpace c = true) :
    pyStrip l = [] := by
  unfold pyStrip
  have h1 : l.dropWhile pyIsSpace = [] := by
    rw [List.dropWhile_eq_nil_iff]
    exact h
  rw [h1]
  rfl

/-- Claim C10: a readable document whose content is empty or
whitespace-only yields the empty chunk sequence (its only section is
dropped as empty after strip), and `chunk_markdown_file` returns `False`
without writing an output file — the same boolean failure as an unreadable
file. -/
theorem C10_blank_document (cfg : Config) (content : List Char)
    (h : ∀ c ∈ content, pyIsSpace c = true) :
    create_semantic_chunks cfg content = [] ∧
    chunk_markdown_file cfg (some content) = RunResult.mk false false := by
  have hscan : headingScan content = [] :=
    headingScanAux_ws content.length content 0 true h
  have hmark : extract_heading_structure content =
      [HeadingMarker.mk 0 "Document Start".toList 0,
       HeadingMarker.mk 0 "END".toList content.length] := by
    unfold extract_heading_structure
    rw [hscan]
    rfl
  have hsec : mkSection content
      [HeadingMarker.mk 0 "Document Start".toList 0,
       HeadingMarker.mk 0 "END".toList content.length] 0 = none := by
    unfold mkSection
    have hslice : listSlice content 0 content.length = content := by
      unfold listSlice
      rw [List.take_length, List.drop_zero]
    simp [hslice, pyStrip_ws content h]
  have hinit : initial_chunks content = [] := by
    unfold initial_chunks
    rw [hmark]
    show List.filterMap _ (List.range 1) = []
    have hr1 : List.range 1 = [0] := rfl
    rw [hr1, List.filterMap_cons, hsec, List.filterMap_nil]
  have hchunks : create_semantic_chunks cfg content = [] := by
    unfold create_semantic_chunks merged_chunks processed_chunks
      _merge_small_chunks
    rw [hinit]
    rfl
  refine ⟨hchunks, ?_⟩
  unfold chunk_markdown_file semanticChunksFromFile
  dsimp only
  rw [hchunks]
  rfl

/-- Witness for `C10_blank_document` at the whitespace document "  \n ". -/
theorem C10_blank_document_witness :
    create_semantic_chunks ⟨1024, 200, 100⟩ "  \n ".toList = [] ∧
    chunk_markdown_file ⟨1024, 200, 100⟩ (some "  \n ".toList) =
      RunResult.mk false false :=
  C10_blank_document ⟨1024, 200, 100⟩ "  \n ".toList (by decide)

/-!
## Claim C6

The heading regex `^(#{1,6})\s+(.+)$` uses `\s+`, which matches any
whitespace — a tab, or even a newline (so a match can span lines) — not
just a space.  The structural facts (ordering, synthetic markers, the
zero-heading case) hold as claimed; the per-heading characterisation holds
for whitespace rather than for a literal space.
-/

/-- The heading-pattern match attempt at position `p` of the document. -/
def headingMatchAt (content : List Char) (p : Nat) :
    Option (Nat × List Char × Nat) :=
  matchHead (content.drop p)

/-- Position `p` starts a line (`^` with `re.MULTILINE`). -/
def isLineStart (content : List Char) (p : Nat) : Prop :=
  p = 0 ∨ content[p - 1]? = some '\n'

/-- Facts about a successful heading-pattern match: level at least 1, at
least one and at most `s.length` characters consumed, a nonempty group 2
free of newlines, and a non-newline character right before the match end. -/
theorem matchHead_facts (s : List Char) (lvl : Nat) (g2 : List Char)
    (cons : Nat) (h : matchHead s = some (lvl, g2, cons)) :
    1 ≤ lvl ∧ 1 ≤ cons ∧ cons ≤ s.length ∧ g2 ≠ [] ∧
    (∀ c ∈ g2, ¬ c = '\n') ∧
    (∃ c, s[cons - 1]? = some c ∧ ¬ c = '\n') := by
  unfold matchHead at h
  dsimp only at h
  by_cases hcond : ((s.takeWhile (· = '#')).length = 0 ||
      6 < (s.takeWhile (· = '#')).length) = true
  · rw [if_pos hcond] at h
    cases h
  rw [if_neg hcond] at h
  by_cases hw0 : ((s.drop (s.takeWhile (· = '#')).length).takeWhile
      pyIsSpace).length = 0
  · rw [if_pos hw0] at h
    cases h
  rw [if_neg hw0] at h
  rcases hj : ((List.range (((s.drop (s.takeWhile (· = '#')).length).takeWhile
      pyIsSpace).length + 1)).filter
      (fun j => decide (1 ≤ j) &&
        match ((s.drop (s.takeWhile (· = '#')).length).drop j).head? with
        | some c => c ≠ '\n'
        | none => false)).getLast? with _ | j
  · rw [hj] at h
    cases h
  rw [hj] at h
  obtain ⟨hlvl, hg2, hcons⟩ : (s.takeWhile (· = '#')).length = lvl ∧
      ((s.drop (s.takeWhile (· = '#')).length).drop j).takeWhile (· ≠ '\n') = g2 ∧
      (s.takeWhile (· = '#')).length + j +
        (((s.drop (s.takeWhile (· = '#')).length).drop j).takeWhile
          (· ≠ '\n')).length = cons := by
    have := Option.some_inj.mp h
    exact ⟨congrArg (·.1) this, congrArg (·.2.1) this, congrArg (·.2.2) this⟩
  subst hlvl hg2 hcons
  set r := (s.takeWhile (· = '#')).length with hr
  set rest := s.drop r with hrest
  have hr1 : 1 ≤ r := by
    by_contra hc
    apply hcond
    simp only [Bool.or_eq_true, decide_eq_true_eq]
    omega
  have hjmem := List.mem_filter.mp (List.mem_of_mem_getLast? hj)
  have hjle : j ≤ (rest.takeWhile pyIsSpace).length := by
    have := List.mem_range.mp hjmem.1
    omega
  have hpred := hjmem.2
  rw [Bool.and_eq_true] at hpred
  have hj1 : 1 ≤ j := by
    have := hpred.1
    simpa using this
  -- the character after the consumed whitespace exists and is not a newline
  rcases hhd : (rest.drop j).head? with _ | c
  · rw [hhd] at hpred
    simp at hpred
  rw [hhd] at hpred
  have hcne : ¬ c = '\n' := by
    have := hpred.2
    simpa using this
  -- decompose rest.drop j as c :: t
  obtain ⟨t, ht⟩ : ∃ t, rest.drop j = c :: t := by
    cases hd : rest.drop j with
    | nil => rw [hd] at hhd; cases hhd
    | cons c' t =>
      rw [hd] at hhd
      obtain rfl := Option.some_inj.mp hhd
      exact ⟨t, rfl⟩
  have hg2eq : (rest.drop j).takeWhile (· ≠ '\n') =
      c :: (t.takeWhile (· ≠ '\n')) := by
    rw [ht, List.takeWhile_cons_of_pos (by simpa using hcne)]
  have hg2ne : (rest.drop j).takeWhile (· ≠ '\n') ≠ [] := by
    rw [hg2eq]
    exact List.cons_ne_nil _ _
  have hg2mem : ∀ x ∈ (rest.drop j).takeWhile (· ≠ '\n'), ¬ x = '\n' := by
    intro x hx
    simpa using List.mem_takeWhile_imp hx
  refine ⟨hr1, by omega, ?_, hg2ne, hg2mem, ?_⟩
  · -- consumed count within the suffix length
    have hr_le : r ≤ s.length := (List.takeWhile_prefix _).length_le
    have hrest_len : rest.length = s.length - r := by
      rw [hrest, List.length_drop]
    have hw_le : (rest.takeWhile pyIsSpace).length ≤ rest.length :=
      (List.takeWhile_prefix _).length_le
    have hg2_le : ((rest.drop j).takeWhile (· ≠ '\n')).length ≤
        (rest.drop j).length := (List.takeWhile_prefix _).length_le
    have : (rest.drop j).length = rest.length - j := List.length_drop j rest
    omega
  · -- the last consumed character is the last of group 2, not a newline
    set g := (rest.drop j).takeWhile (· ≠ '\n') with hg
    have hglen : 1 ≤ g.length := by
      cases hgc : g with
      | nil => exact absurd hgc hg2ne
      | cons a u => simp [hgc]
    have hidx : r + j + g.length - 1 = r + (j + (g.length - 1)) := by omega
    have hk : g.length - 1 < g.length := by omega
    refine ⟨g[g.length - 1], ?_, hg2mem _ (List.getElem_mem hk)⟩
    rw [hidx, ← List.getElem?_drop, ← hrest, ← List.getElem?_drop]
    have hsplit : g ++ (rest.drop j).dropWhile (· ≠ '\n') = rest.drop j :=
      List.takeWhile_append_dropWhile (· ≠ '\n') (rest.drop j)
    rw [← hsplit, List.getElem?_append_left hk]
    exact List.getElem?_eq_getElem hk

/-- Scanner matches lie within the scanned suffix. -/
theorem headingScanAux_bounds :
    ∀ (fuel : Nat) (s : List Char) (p : Nat) (ls : Bool),
      ∀ m ∈ headingScanAux fuel s p ls, p ≤ m.1 ∧ m.1 < p + s.length := by
  intro fuel
  induction fuel with
  | zero =>
    intro s p ls m hm
    cases s <;> simp [headingScanAux] at hm
  | succ fuel ih =>
    intro s p ls m hm
    cases s with
    | nil => simp [headingScanAux] at hm
    | cons c rest =>
      unfold headingScanAux at hm
      by_cases hls : ls = true
      · rw [if_pos hls] at hm
        rcases hmh : matchHead (c :: rest) with _ | ⟨lvl, g2, cons⟩
        · rw [hmh] at hm
          have := ih rest (p + 1) (c = '\n') m hm
          simp only [List.length_cons]
          omega
        · rw [hmh] at hm
          rcases List.mem_cons.mp hm with rfl | hm'
          · simp
          · obtain ⟨-, hc1, hc2, -, -, -⟩ := matchHead_facts _ _ _ _ hmh
            have := ih _ _ false m hm'
            simp only [List.length_drop, List.length_cons] at this ⊢
            omega
      · rw [if_neg hls] at hm
        have := ih rest (p + 1) (c = '\n') m hm
        simp only [List.length_cons]
        omega

/-- Scanner matches have strictly increasing positions. -/
theorem headingScanAux_chain :
    ∀ (fuel : Nat) (s : List Char) (p : Nat) (ls : Bool),
      List.Chain' (fun a b => a.1 < b.1) (headingScanAux fuel s p ls) := by
  intro fuel
  induction fuel with
  | zero => intro s p ls; cases s <;> simp [headingScanAux]
  | succ fuel ih =>
    intro s p ls
    cases s with
    | nil => simp [headingScanAux]
    | cons c rest =>
      unfold headingScanAux
      by_cases hls : ls = true
      · rw [if_pos hls]
        rcases hmh : matchHead (c :: rest) with _ | ⟨lvl, g2, cons⟩
        · exact ih rest (p + 1) (c = '\n')
        · rw [List.chain'_cons']
          refine ⟨?_, ih _ _ _⟩
          intro b hb
          have hmem := List.mem_of_mem_head? hb
          have hbd := headingScanAux_bounds fuel _ _ _ b hmem
          obtain ⟨-, hc1, -, -, -, -⟩ := matchHead_facts _ _ _ _ hmh
          show p < b.1
          omega
      · rw [if_neg hls]
        exact ih rest (p + 1) (c = '\n')

/-- A Boolean line-start flag correctly describes position `p + 1` when the
character at `p` is known. -/
theorem lineStart_succ_iff (content : List Char) (p : Nat) (c : Char)
    (hcp : content[p]? = some c) :
    ((c = '\n') : Bool) = true ↔ isLineStart content (p + 1) := by
  unfold isLineStart
  simp only [decide_eq_true_eq, Nat.add_sub_cancel]
  constructor
  · intro h
    right
    rw [hcp, h]
  · rintro (h | h)
    · omega
    · rw [hcp] at h
      exact Option.some_inj.mp h

/-- Scanner soundness: every emitted triple is a heading-pattern match at
its position, and that position starts a line. -/
theorem headingScanAux_sound :
    ∀ (fuel : Nat) (content : List Char) (p : Nat) (ls : Bool),
      (ls = true ↔ isLineStart content p) →
      ∀ m ∈ headingScanAux fuel (content.drop p) p ls,
        (∃ cons, headingMatchAt content m.1 = some (m.2.1, m.2.2, cons)) ∧
        isLineStart content m.1 := by
  intro fuel
  induction fuel with
  | zero =>
    intro content p ls _ m hm
    cases h : content.drop p <;> rw [h] at hm <;> simp [headingScanAux] at hm
  | succ fuel ih =>
    intro content p ls hinv m hm
    cases hd : content.drop p with
    | nil =>
      rw [hd] at hm
      simp [headingScanAux] at hm
    | cons c rest =>
      rw [hd] at hm
      unfold headingScanAux at hm
      have hrest : rest = content.drop (p + 1) := by
        have ht := List.tail_drop content p
        rw [hd] at ht
        simpa using ht
      have hcp : content[p]? = some c := by
        have hg := List.getElem?_drop content p 0
        rw [hd] at hg
        simpa using hg.symm
      by_cases hls : ls = true
      · rw [if_pos hls] at hm
        rcases hmh : matchHead (c :: rest) with _ | ⟨lvl, g2, cons⟩
        · rw [hmh] at hm
          rw [hrest] at hm
          exact ih content (p + 1) (c = '\n') (lineStart_succ_iff content p c hcp) m hm
        · rw [hmh] at hm
          rcases List.mem_cons.mp hm with rfl | hm'
          · refine ⟨⟨cons, ?_⟩, hinv.mp hls⟩
            unfold headingMatchAt
            rw [hd, hmh]
          · obtain ⟨-, hc1, -, -, -, cchar, hclast, hcne⟩ :=
              matchHead_facts _ _ _ _ hmh
            have hdropc : (c :: rest).drop cons = content.drop (p + cons) := by
              calc (c :: rest).drop cons = (content.drop p).drop cons := by rw [hd]
                _ = content.drop (p + cons) := List.drop_drop ..
            rw [hdropc] at hm'
            apply ih content (p + cons) false ?_ m hm'
            constructor
            · intro hfalse
              cases hfalse
            · intro hlsc
              exfalso
              rcases hlsc with h0 | hnl
              · omega
              · have hidx : content[p + cons - 1]? = (content.drop p)[cons - 1]? := by
                  rw [List.getElem?_drop]
                  congr 1
                  omega
                rw [hd, hclast] at hidx
                rw [hnl] at hidx
                exact hcne (Option.some_inj.mp hidx.symm).symm.symm
      · rw [if_neg hls] at hm
        rw [hrest] at hm
        exact ih content (p + 1) (c = '\n') (lineStart_succ_iff content p c hcp) m hm

/-- When the pattern does not match at position 0, every scanner match sits
at a positive position. -/
theorem headingScan_pos_of_none (content : List Char)
    (h : matchHead content = none) :
    ∀ m ∈ headingScan content, 1 ≤ m.1 := by
  unfold headingScan
  cases content with
  | nil =>
    intro m hm
    simp [headingScanAux] at hm
  | cons c rest =>
    intro m hm
    simp only [List.length_cons] at hm
    unfold headingScanAux at hm
    rw [if_pos rfl, h] at hm
    exact (headingScanAux_bounds rest.length rest 1 (c = '\n') m hm).1

/-- When the pattern matches at position 0, the scan starts with that
match at position 0. -/
theorem headingScan_cons_of_some (content : List Char) (lvl : Nat)
    (g2 : List Char) (cons : Nat) (h : matchHead content = some (lvl, g2, cons)) :
    ∃ tl, headingScan content = (0, lvl, g2) :: tl := by
  unfold headingScan
  cases content with
  | nil =>
    exact absurd h (by simp [matchHead])
  | cons c rest =>
    simp only [List.length_cons]
    unfold headingScanAux
    rw [if_pos rfl, h]
    exact ⟨_, rfl⟩

/-- Claim C6 (amended): `extract_heading_structure` returns markers ordered
by position; the synthetic level-0 "END" marker at the document length is
always last; the synthetic level-0 "Document Start" marker at position 0 is
present (as head) exactly when the heading pattern — one to six '#'
followed by whitespace (`\s+`, not only a space) and text — does not match
at position 0; every marker with level > 0 arises from a pattern match at
its position, which starts a line, with level the '#' count and title the
stripped group-2 text; and a document with no pattern match at all yields
exactly the two synthetic markers. -/
theorem C6_heading_structure (content : List Char) :
    (extract_heading_structure content).getLast? =
      some (HeadingMarker.mk 0 "END".toList content.length) ∧
    List.Chain' (fun a b => a.position ≤ b.position)
      (extract_heading_structure content) ∧
    ((extract_heading_structure content).head? =
        some (HeadingMarker.mk 0 "Document Start".toList 0) ↔
      matchHead content = none) ∧
    (∀ mk ∈ extract_heading_structure content, 0 < mk.level →
      ∃ g2 cons, headingMatchAt content mk.position = some (mk.level, g2, cons) ∧
        mk.title = pyStrip g2 ∧ isLineStart content mk.position) ∧
    (headingScan content = [] →
      extract_heading_structure content =
        [HeadingMarker.mk 0 "Document Start".toList 0,
         HeadingMarker.mk 0 "END".toList content.length]) := by
  have hsound : ∀ m ∈ headingScan content,
      (∃ cons, headingMatchAt content m.1 = some (m.2.1, m.2.2, cons)) ∧
      isLineStart content m.1 := by
    intro m hm
    refine headingScanAux_sound content.length content 0 true ?_ m ?_
    · simp [isLineStart]
    · rw [List.drop_zero]
      exact hm
  have hbounds : ∀ m ∈ headingScan content, m.1 < content.length := by
    intro m hm
    have := headingScanAux_bounds content.length content 0 true m hm
    omega
  have hchain : List.Chain' (fun a b => a.1 < b.1) (headingScan content) :=
    headingScanAux_chain _ _ _ _
  unfold extract_heading_structure
  dsimp only
  set H := (headingScan content).map
    (fun m => HeadingMarker.mk m.2.1 (pyStrip m.2.2) m.1) with hH
  set cond := (H.isEmpty || (match H.head? with
      | some h => 0 < h.position
      | none => true) : Bool) with hcond
  have hHmem : ∀ mk ∈ H, mk.position < content.length ∧
      (0 < mk.level →
        ∃ g2 cons, headingMatchAt content mk.position =
          some (mk.level, g2, cons) ∧
        mk.title = pyStrip g2 ∧ isLineStart content mk.position) := by
    intro mk hmk
    rw [hH] at hmk
    obtain ⟨m, hm, rfl⟩ := List.mem_map.mp hmk
    obtain ⟨⟨cons, hmt⟩, hls⟩ := hsound m hm
    exact ⟨hbounds m hm, fun _ => ⟨m.2.2, cons, hmt, rfl, hls⟩⟩
  refine ⟨?_, ?_, ?_, ?_, ?_⟩
  · exact List.getLast?_concat _
  · rw [List.chain'_append]
    refine ⟨?_, by simp, ?_⟩
    · have hHchain : List.Chain' (fun a b => a.position ≤ b.position) H := by
        rw [hH, List.chain'_map]
        exact hchain.imp (fun a b hab => Nat.le_of_lt hab)
      by_cases hc : cond = true
      · rw [if_pos hc]
        rw [List.chain'_cons']
        exact ⟨fun b _ => Nat.zero_le _, hHchain⟩
      · rw [if_neg hc]
        exact hHchain
    · intro x hx y hy
      have hy' : HeadingMarker.mk 0 "END".toList content.length = y := by
        simpa using hy
      subst hy'
      show x.position ≤ content.length
      have hxmem := List.mem_of_mem_getLast? hx
      by_cases hc : cond = true
      · rw [if_pos hc] at hxmem
        rcases List.mem_cons.mp hxmem with rfl | hxH
        · exact Nat.zero_le _
        · exact Nat.le_of_lt (hHmem x hxH).1
      · rw [if_neg hc] at hxmem
        exact Nat.le_of_lt (hHmem x hxmem).1
  · constructor
    · intro hhead
      by_contra hne
      rcases hmh : matchHead content with _ | ⟨lvl, g2, cons⟩
      · exact hne hmh
      obtain ⟨tl, htl⟩ := headingScan_cons_of_some content lvl g2 cons hmh
      have hHeq : H = HeadingMarker.mk lvl (pyStrip g2) 0 ::
          tl.map (fun m => HeadingMarker.mk m.2.1 (pyStrip m.2.2) m.1) := by
        rw [hH, htl]
        rfl
      have hcfalse : cond = false := by
        rw [hcond, hHeq]
        simp
      rw [if_neg (by rw [hcfalse]; simp)] at hhead
      rw [hHeq] at hhead
      have : HeadingMarker.mk lvl (pyStrip g2) 0 =
          HeadingMarker.mk 0 "Document Start".toList 0 := by
        simpa using hhead
      obtain ⟨hl1, -, -⟩ := matchHead_facts _ _ _ _ hmh
      have : lvl = 0 := congrArg HeadingMarker.level this
      omega
    · intro hnone
      have hctrue : cond = true := by
        rw [hcond]
        cases hscan : headingScan content with
        | nil => rw [hH, hscan]; rfl
        | cons m tl =>
          have hm1 := headingScan_pos_of_none content hnone m
            (hscan ▸ List.mem_cons_self m tl)
          rw [hH, hscan]
          simp only [List.map_cons, List.head?_cons, List.isEmpty_cons,
            Bool.false_or]
          simpa using hm1
      rw [if_pos hctrue]
      rfl
  · intro mk hmk hlvl
    rcases List.mem_append.mp hmk with hx | hx
    · by_cases hc : cond = true
      · rw [if_pos hc] at hx
        rcases List.mem_cons.mp hx with rfl | hxH
        · simp at hlvl
        · exact (hHmem mk hxH).2 hlvl
      · rw [if_neg hc] at hx
        exact (hHmem mk hx).2 hlvl
    · have : mk = HeadingMarker.mk 0 "END".toList content.length := by
        simpa using hx
      subst this
      simp at hlvl
  · intro hempty
    have hct : cond = true := by
      rw [hcond, hH, hempty]
      rfl
    rw [if_pos hct, hH, hempty]
    rfl

/-- Claim C6 counterexample: in the document "##\tB" the '#' run is
followed by a tab, not a space, so under the claim's heading definition
("1-6 leading '#' followed by a space and text") the document has zero
headings and must yield exactly the two synthetic markers, with a
"Document Start" marker present.  The code's `\s+` accepts the tab: it
emits a level-2 marker with title "B" at position 0 and no Document Start
marker. -/
theorem C6_counterexample :
    extract_heading_structure "##\tB".toList =
      [HeadingMarker.mk 2 "B".toList 0,
       HeadingMarker.mk 0 "END".toList 4] ∧
    "##\tB".toList[2]? = some '\t' ∧ ¬ ('\t' = ' ') ∧
    (∀ mk ∈ extract_heading_structure "##\tB".toList,
      ¬ mk.title = "Document Start".toList) := by
  refine ⟨by decide, by decide, by decide, by decide⟩

/-- Witness for `C6_heading_structure`: the level-2 marker of "##\tB"
arises from a pattern match at its position 0, a line start. -/
theorem C6_heading_structure_witness :
    ∃ g2 cons, headingMatchAt "##\tB".toList 0 = some (2, g2, cons) ∧
      "B".toList = pyStrip g2 ∧ isLineStart "##\tB".toList 0 :=
  (C6_heading_structure "##\tB".toList).2.2.2.1
    (HeadingMarker.mk 2 "B".toList 0) (by decide) (by decide)
